import Mathlib

/-!
Verification of the casteel_creek single-page scraper (src/main.rs).

Shallow embedding of the Rust program in `src/main.rs`: a linear pipeline
fetch → extract → persist → download-loop.  Machine-level effects are made
explicit: the filesystem is an association list from paths to contents, the
HTTP client is a function from URLs to outcomes, and the download loop
produces an explicit event trace (file writes, error log lines, sleeps).

The three compiled patterns (`IMAGE_LINK_RE`, `ST_CITY_STATE_ZIP_RE`,
`PRICE_RE`) are embedded as character-list matchers that follow the regex
crate's leftmost-first backtracking semantics for precisely those three
patterns (lazy `*?` tries the continuation before consuming, `.` matches
any character except a newline, `[0-9,]+` is greedy, `\d` is a decimal
digit).
-/

namespace CasteelCreek

/-- Strips an expected literal prefix off a character list, returning the
remainder, or `none` when the literal is not a prefix. -/
def stripPrefixChars : List Char → List Char → Option (List Char)
  | [], s => some s
  | _ :: _, [] => none
  | p :: ps, c :: cs => if p == c then stripPrefixChars ps cs else none

/-- The character class `[0-9,]` of `PRICE_RE`. -/
def isPriceChar (c : Char) : Bool := c.isDigit || c == ','

/-- One anchored attempt of `PRICE_RE` =
`propertyHistory-table-td.><div>\$([0-9,]+)</div></td></tr>` at the front of
`s`; returns the group-1 capture.  The `.` matches any non-newline
character; `[0-9,]+` is greedy and, as `<` is outside the class, needs no
backtracking before the literal tail. -/
def priceMatchAt (s : List Char) : Option (List Char) :=
  match stripPrefixChars "propertyHistory-table-td".toList s with
  | none => none
  | some s1 =>
    match s1 with
    | [] => none
    | c :: s2 =>
      if c == '\n' then none
      else
        match stripPrefixChars "><div>$".toList s2 with
        | none => none
        | some s3 =>
          let run := s3.takeWhile isPriceChar
          let rest := s3.dropWhile isPriceChar
          if run.isEmpty then none
          else
            match stripPrefixChars "</div></td></tr>".toList rest with
            | none => none
            | some _ => some run

/-- Leftmost match of `PRICE_RE`: try an anchored attempt at every position,
left to right. -/
def priceScan : List Char → Option (List Char)
  | [] => none
  | c :: cs =>
    match priceMatchAt (c :: cs) with
    | some r => some r
    | none => priceScan cs

/-- The call `PRICE_RE.captures(html)` restricted to group 1, as used by
`extract_metadata` (group 1 is mandatory, so it is present whenever the
whole pattern matches). -/
def priceCapture (html : String) : Option String :=
  (priceScan html.toList).map List.asString

/-- The lazy middle `[^"]*?` of `IMAGE_LINK_RE` followed by the literal
`origin.webp"`: at each position first try the literal (lazy preference),
otherwise consume one non-quote character.  Returns the capture tail
(consumed middle ++ `origin.webp`) and the remainder after the closing
quote. -/
def imageLazyScan : List Char → List Char → Option (List Char × List Char)
  | _, [] => none
  | acc, c :: cs =>
    match stripPrefixChars "origin.webp\"".toList (c :: cs) with
    | some rest => some (acc.reverse ++ "origin.webp".toList, rest)
    | none => if c == '"' then none else imageLazyScan (c :: acc) cs

/-- One anchored attempt of `IMAGE_LINK_RE` =
`"(https://[^"]*?origin\.webp)"` at the front of `s`; returns the group-1
capture and the remainder after the whole match. -/
def imageMatchAt (s : List Char) : Option (List Char × List Char) :=
  match s with
  | [] => none
  | c :: s1 =>
    if c == '"' then
      match stripPrefixChars "https://".toList s1 with
      | none => none
      | some s2 =>
        match imageLazyScan [] s2 with
        | none => none
        | some (mid, rest) => some ("https://".toList ++ mid, rest)
    else none

/-- Non-overlapping leftmost matches (`captures_iter`): on a match continue
after its end, otherwise advance one position.  The fuel argument only
bounds the recursion; every match consumes at least its opening quote, so
`fuel = s.length` never runs out (see `imageScan_fuel`). -/
def imageScan : Nat → List Char → List (List Char)
  | 0, _ => []
  | _, [] => []
  | fuel + 1, c :: cs =>
    match imageMatchAt (c :: cs) with
    | some (cap, rest) => cap :: imageScan fuel rest
    | none => imageScan fuel cs

/-- The group-1 captures of `IMAGE_LINK_RE.captures_iter(html)`, in
discovery order (before the Rust code feeds them into a `HashSet`). -/
def imageCaptures (html : String) : List String :=
  (imageScan html.toList.length html.toList).map List.asString

/-- Group 5 of `ST_CITY_STATE_ZIP_RE` (`(\d*?)`) followed by the literal
` | Compass</title>`: lazy, so try the literal before consuming a digit. -/
def stMls : List Char → List Char → Option (List Char)
  | acc, s =>
    match stripPrefixChars " | Compass</title>".toList s with
    | some _ => some acc.reverse
    | none =>
      match s with
      | [] => none
      | c :: cs => if c.isDigit then stMls (c :: acc) cs else none

/-- Groups 3–5 of `ST_CITY_STATE_ZIP_RE`: `(..) (\d\d\d\d\d) \| MLS #` then
`stMls`.  Group 3 is two non-newline characters, group 4 exactly five
digits; both are fixed-width, so no further backtracking arises here. -/
def stTail (s : List Char) : Option (List Char × List Char × List Char) :=
  match s with
  | c1 :: c2 :: ' ' :: d1 :: d2 :: d3 :: d4 :: d5 :: s1 =>
    if c1 == '\n' || c2 == '\n' then none
    else if d1.isDigit && d2.isDigit && d3.isDigit && d4.isDigit && d5.isDigit then
      match stripPrefixChars " | MLS #".toList s1 with
      | none => none
      | some s2 => (stMls [] s2).map (fun g5 => ([c1, c2], [d1, d2, d3, d4, d5], g5))
    else none
  | _ => none

/-- The stop continuation for group 2: the literal `, ` then `stTail`. -/
def stCityStop (s : List Char) : Option (List Char × List Char × List Char) :=
  match s with
  | ',' :: ' ' :: s1 => stTail s1
  | _ => none

/-- Group 2 (`(.*?)`), lazy: at each position first try the whole
continuation, else absorb one non-newline character. -/
def stCity : List Char → List Char → Option (List Char × List Char × List Char × List Char)
  | acc, s =>
    match stCityStop s with
    | some (g3, g4, g5) => some (acc.reverse, g3, g4, g5)
    | none =>
      match s with
      | [] => none
      | c :: cs => if c == '\n' then none else stCity (c :: acc) cs

/-- The stop continuation for group 1: the literal `, ` then group 2
onwards. -/
def stStreetStop (s : List Char) :
    Option (List Char × List Char × List Char × List Char) :=
  match s with
  | ',' :: ' ' :: s1 => stCity [] s1
  | _ => none

/-- Group 1 (`(.*?)`), lazy, like `stCity`. -/
def stStreet : List Char → List Char →
    Option (List Char × List Char × List Char × List Char × List Char)
  | acc, s =>
    match stStreetStop s with
    | some (g2, g3, g4, g5) => some (acc.reverse, g2, g3, g4, g5)
    | none =>
      match s with
      | [] => none
      | c :: cs => if c == '\n' then none else stStreet (c :: acc) cs

/-- One anchored attempt of `ST_CITY_STATE_ZIP_RE` =
`<title>(.*?), (.*?), (..) (\d\d\d\d\d) \| MLS #(\d*?) \| Compass</title>`
at the front of `s`. -/
def stMatchAt (s : List Char) :
    Option (List Char × List Char × List Char × List Char × List Char) :=
  match stripPrefixChars "<title>".toList s with
  | none => none
  | some s1 => stStreet [] s1

/-- Leftmost match of `ST_CITY_STATE_ZIP_RE`. -/
def stScan : List Char →
    Option (List Char × List Char × List Char × List Char × List Char)
  | [] => none
  | c :: cs =>
    match stMatchAt (c :: cs) with
    | some r => some r
    | none => stScan cs

/-- The call `ST_CITY_STATE_ZIP_RE.captures(html)` viewed through `caps.get(1)` …
`caps.get(5)`, as the Rust `if let` consumes it.  All five groups are
mandatory in the pattern, so when the whole pattern matches every group is
present; the `Option` layer on each component mirrors the `Captures::get`
API. -/
def stCaptures (html : String) :
    Option (Option String × Option String × Option String × Option String × Option String) :=
  (stScan html.toList).map (fun r =>
    (some r.1.asString, some r.2.1.asString, some r.2.2.1.asString,
     some r.2.2.2.1.asString, some r.2.2.2.2.asString))

/-- The `PropertyMetadata` struct of `src/main.rs`. -/
structure PropertyMetadata where
  url : String
  description : Option String
  street : Option String
  city : Option String
  state : Option String
  zip : Option String
  mls : Option String
  price : Option String
  num_images : Option String
  deriving DecidableEq

/-- Function `extract_metadata` of `src/main.rs`: initializes the record (the
`description` field is initialized to `None` and never assigned), then the
price lookup, then the composite address lookup, each mirroring the Rust
`if let` blocks in source order. -/
def extract_metadata (html url : String) (num_images : Nat) : PropertyMetadata :=
  let pm0 : PropertyMetadata :=
    { url := "URL: " ++ url
      description := none
      street := none
      city := none
      state := none
      zip := none
      mls := none
      price := none
      num_images := some ("Number of unique images found: " ++ toString num_images) }
  let pm1 :=
    match priceCapture html with
    | some price => { pm0 with price := some ("Price: $" ++ price) }
    | none => pm0
  match stCaptures html with
  | some (some st, some cty, some stt, some zp, some ml) =>
    { pm1 with
        street := some ("Street: " ++ st)
        city := some ("City: " ++ cty)
        state := some ("State: " ++ stt)
        zip := some ("Zip: " ++ zp)
        mls := some ("MLS: " ++ ml) }
  | _ => pm1

example : priceCapture "propertyHistory-table-tdX><div>$1,234</div></td></tr>" = some "1,234" := by
  decide

example :
    imageCaptures "x\"https://a/1-origin.webp\"y\"https://a/1-origin.webp\"" =
      ["https://a/1-origin.webp", "https://a/1-origin.webp"] := by decide

example :
    stCaptures "<title>1 Main St, Springfield, CA 90210 | MLS #12345 | Compass</title>" =
      some (some "1 Main St", some "Springfield", some "CA", some "90210", some "12345") := by
  decide

/-- Outcome of one HTTP GET as seen by the reqwest client: either a
transport-level failure (`send()` returns `Err`) or a response carrying a
status code and a body.  `send()` succeeds for every received response,
whatever its status. -/
inductive HttpOutcome where
  | transportError (msg : String)
  | response (status : Nat) (body : String)
  deriving DecidableEq

/-- Method `reqwest::Response::error_for_status` fails exactly on client-error
(4xx) and server-error (5xx) status codes. -/
def statusIsError (status : Nat) : Bool := 400 ≤ status && status < 600

/-- The filesystem as a path → contents association list; the head entry
for a path is its current contents. -/
abbrev FS := List (String × String)

/-- Call `tokio::fs::write`: creates the file or truncates and overwrites an
existing one. -/
def fsWrite (fs : FS) (path content : String) : FS :=
  (path, content) :: fs.filter (fun e => e.1 != path)

/-- Reads the current contents at a path, if present. -/
def fsRead (fs : FS) (path : String) : Option String :=
  (fs.find? (fun e => e.1 == path)).map (fun e => e.2)

/-- Rust `str::starts_with`, spelled out on character lists (Lean's
library version is not kernel-reducible). -/
def startsWithChars (p s : String) : Bool :=
  (stripPrefixChars p.toList s.toList).isSome

/-- Function `get_html` of `src/main.rs`.  For `http…` sources it returns the
response body for every received response — `send()` errors only on
transport failure and `.text()` does not inspect the status (there is no
`error_for_status` call here, unlike `download_file`).  Other sources are
read from the local filesystem `localFs`. -/
def get_html (net : String → HttpOutcome) (localFs : String → Option String)
    (url_or_path : String) : Except String String :=
  if startsWithChars "http" url_or_path then
    match net url_or_path with
    | .transportError _ => .error "Failed to send request"
    | .response _ body => .ok body
  else
    match localFs url_or_path with
    | some text => .ok text
    | none => .error "Failed to read HTML from file"

/-- The fetch part of `download_file`:
`client.get(url).send().await?.error_for_status()?` then `.bytes()`. -/
def fetchOutcome (net : String → HttpOutcome) (url : String) : Except String String :=
  match net url with
  | .transportError msg => .error msg
  | .response status body =>
    if statusIsError status then .error ("HTTP status error for url " ++ url)
    else .ok body

/-- Function `download_file` of `src/main.rs`: fetch the URL (failing on transport
errors and on non-success statuses) and write the bytes to `path`
unconditionally — the function never looks at the existing file. -/
def download_file (net : String → HttpOutcome) (url path : String) (fs : FS) :
    Except String FS :=
  (fetchOutcome net url).map (fun content => fsWrite fs path content)

/-- Observable events of a run: a file write, an error log line
(`eprintln!`), or a `tokio::time::sleep`. -/
inductive Event where
  | wrote (path : String)
  | logged (msg : String)
  | slept (secs : Nat)
  deriving DecidableEq

/-- Whether an event is a sleep. -/
def isSleep : Event → Bool
  | .slept _ => true
  | _ => false

/-- Expression `images_dir.join(format!(…))` of the download loop: the destination
path for 1-based index `idx`. -/
def destPath (output name : String) (idx : Nat) : String :=
  output ++ "/" ++ name ++ "/images/" ++ name ++ "-" ++ toString idx ++ ".webp"

/-- The `for (i, link) in image_links.iter().enumerate()` loop of `main`:
`i` is the 0-based index, `total` is `image_links.len()`.  Each iteration
computes the destination path for index `i + 1`, calls `download_file`,
logs (instead of aborting) on error, and sleeps `delay` seconds when
`i < total - 1`. -/
def downloadLoopGo (net : String → HttpOutcome) (output name : String)
    (delay total : Nat) : Nat → List String → FS → FS × List Event
  | _, [], fs => (fs, [])
  | i, link :: rest, fs =>
    let path := destPath output name (i + 1)
    let step :=
      match download_file net link path fs with
      | .ok fs1 => (fs1, Event.wrote path)
      | .error e => (fs, Event.logged ("Error downloading " ++ link ++ ": " ++ e))
    let tail := downloadLoopGo net output name delay total (i + 1) rest step.1
    let evs := if i < total - 1 then Event.slept delay :: tail.2 else tail.2
    (tail.1, step.2 :: evs)

/-- The whole download loop over the extracted link list. -/
def downloadLoop (net : String → HttpOutcome) (output name : String)
    (delay : Nat) (links : List String) (fs : FS) : FS × List Event :=
  downloadLoopGo net output name delay links.length 0 links fs

/-- The single event each loop iteration emits for the 0-based index `i`:
a write to the index-`i + 1` destination on success, an error log line on
failure.  It depends only on the network outcome, not on the filesystem. -/
def itemEvent (net : String → HttpOutcome) (output name : String)
    (i : Nat) (link : String) : Event :=
  match fetchOutcome net link with
  | .ok _ => .wrote (destPath output name (i + 1))
  | .error e => .logged ("Error downloading " ++ link ++ ": " ++ e)

/-- The per-item events of the loop starting at 0-based index `i`. -/
def itemEvents (net : String → HttpOutcome) (output name : String) :
    Nat → List String → List Event
  | _, [] => []
  | i, link :: rest => itemEvent net output name i link :: itemEvents net output name (i + 1) rest

/-- Path `<output>/<name>/page.html`. -/
def pagePath (output name : String) : String := output ++ "/" ++ name ++ "/page.html"

/-- Path `<output>/<name>/info.txt`. -/
def infoPath (output name : String) : String := output ++ "/" ++ name ++ "/info.txt"

/-- The serialized metadata record written by `save_metadata`
(`serde_json::to_string_pretty` abstracted to a rendering in which absent
fields are distinguishable; no claim inspects this text). -/
def serializeMetadata (m : PropertyMetadata) : String :=
  String.intercalate "\n"
    [m.url, m.description.getD "null", m.street.getD "null", m.city.getD "null",
     m.state.getD "null", m.zip.getD "null", m.mls.getD "null", m.price.getD "null",
     m.num_images.getD "null"]

/-- The set of link lists `extract_unique_image_links` may return for
`html`: the Rust function collects the `IMAGE_LINK_RE` captures into a
`HashSet<String>` and re-collects it into a `Vec`.  `HashSet` iteration
order is unspecified (the standard hasher is randomly seeded per process),
so the permitted outputs are exactly the duplicate-free enumerations of
the set of captures, in any order. -/
def extract_unique_image_links (html : String) (links : List String) : Prop :=
  links.Nodup ∧ (∀ l ∈ links, l ∈ imageCaptures html) ∧
    (∀ l ∈ imageCaptures html, l ∈ links)

instance (html : String) (links : List String) :
    Decidable (extract_unique_image_links html links) := by
  unfold extract_unique_image_links; infer_instance

/-- Function `main` of `src/main.rs`, after argument parsing, with the link order
chosen by the `HashSet` passed in as `links` (valid orders are the ones
satisfying `extract_unique_image_links`): create the output directories
(directories are not part of the `FS` file map), fetch the page, write
`page.html`, extract links and metadata, write `info.txt`, and unless
`skip_images` is set or no link was found, run the download loop.  The
returned `Except` is the process exit status: `.ok` exits 0. -/
def runMainWith (net : String → HttpOutcome) (localFs : String → Option String)
    (url name output : String) (skip_images : Bool) (delay : Nat)
    (links : List String) (fs : FS) : Except String (FS × List Event) :=
  match get_html net localFs url with
  | .error e => .error e
  | .ok html =>
    let fs1 := fsWrite fs (pagePath output name) html
    let pm := extract_metadata html url links.length
    let fs2 := fsWrite fs1 (infoPath output name) (serializeMetadata pm)
    let ev0 : List Event := [Event.wrote (pagePath output name), Event.wrote (infoPath output name)]
    if skip_images then .ok (fs2, ev0)
    else if links.isEmpty then .ok (fs2, ev0)
    else
      let r := downloadLoop net output name delay links fs2
      .ok (r.1, ev0 ++ r.2)

/-- Whether the run exited 0. -/
def runResultOk : Except String (FS × List Event) → Bool
  | .ok _ => true
  | .error _ => false

/-- The event trace of a run (empty for an aborted run). -/
def runEvents : Except String (FS × List Event) → List Event
  | .ok r => r.2
  | .error _ => []

/-- The final filesystem of a run (empty for an aborted run). -/
def runFS : Except String (FS × List Event) → FS
  | .ok r => r.1
  | .error _ => []

/-! Helper lemmas -/

/-- Writing then reading the same path yields the written contents. -/
theorem fsRead_fsWrite (fs : FS) (p c : String) : fsRead (fsWrite fs p c) p = some c := by
  simp [fsRead, fsWrite, List.find?_cons_of_pos]

/-- Stripping a literal never lengthens the remainder. -/
theorem stripPrefixChars_length :
    ∀ p s r : List Char, stripPrefixChars p s = some r → r.length ≤ s.length := by
  intro p
  induction p with
  | nil =>
    intro s r h
    simp only [stripPrefixChars, Option.some.injEq] at h
    subst h
    exact Nat.le_refl _
  | cons p ps ih =>
    intro s r h
    cases s with
    | nil => simp [stripPrefixChars] at h
    | cons c cs =>
      simp only [stripPrefixChars] at h
      split at h
      · exact Nat.le_trans (ih cs r h) (Nat.le_succ _)
      · simp at h

/-- The remainder of the lazy image-middle scan is no longer than its
input. -/
theorem imageLazyScan_length :
    ∀ acc s cap rest, imageLazyScan acc s = some (cap, rest) → rest.length ≤ s.length := by
  intro acc s
  induction acc, s using imageLazyScan.induct with
  | case1 acc =>
    intro cap rest h
    simp [imageLazyScan] at h
  | case2 acc c cs r hr =>
    intro cap rest h
    rw [imageLazyScan, hr] at h
    simp only [Option.some.injEq, Prod.mk.injEq] at h
    exact h.2 ▸ stripPrefixChars_length _ _ _ hr
  | case3 acc c cs hr hq =>
    intro cap rest h
    rw [imageLazyScan, hr] at h
    simp [hq] at h
  | case4 acc c cs hr hq ih =>
    intro cap rest h
    rw [imageLazyScan, hr] at h
    rw [if_neg (by simp_all)] at h
    exact Nat.le_trans (ih cap rest h) (Nat.le_succ _)

/-- A whole `IMAGE_LINK_RE` match strictly consumes its opening quote. -/
theorem imageMatchAt_length (c : Char) (cs : List Char) (cap rest : List Char)
    (h : imageMatchAt (c :: cs) = some (cap, rest)) : rest.length ≤ cs.length := by
  rw [imageMatchAt] at h
  by_cases hc : (c == '"') = true
  · rw [if_pos hc] at h
    cases h1 : stripPrefixChars "https://".toList cs with
    | none => simp only [h1] at h; cases h
    | some s2 =>
      simp only [h1] at h
      cases h2 : imageLazyScan [] s2 with
      | none => simp only [h2] at h; cases h
      | some pr =>
        obtain ⟨mid, after⟩ := pr
        simp only [h2, Option.some.injEq, Prod.mk.injEq] at h
        have hl := imageLazyScan_length [] s2 mid after h2
        have h3 := stripPrefixChars_length _ _ _ h1
        have h4 : rest = after := h.2.symm
        subst h4
        omega
  · rw [if_neg hc] at h
    simp at h

/-- Function `imageScan` is fuel-insensitive once the fuel covers the input length,
so running it with `fuel = s.length` computes the true match list. -/
theorem imageScan_fuel :
    ∀ (f : Nat) (s : List Char) (g : Nat), s.length ≤ f → s.length ≤ g →
      imageScan f s = imageScan g s := by
  intro f
  induction f with
  | zero =>
    intro s g hf _
    cases s with
    | nil => cases g <;> rfl
    | cons c cs => simp at hf
  | succ f ih =>
    intro s g hf hg
    cases s with
    | nil => cases g <;> rfl
    | cons c cs =>
      cases g with
      | zero => simp at hg
      | succ g =>
        simp only [imageScan]
        cases hm : imageMatchAt (c :: cs) with
        | none =>
          simp only [hm]
          exact ih cs g (by simp at hf; omega) (by simp at hg; omega)
        | some pr =>
          obtain ⟨cap, rest⟩ := pr
          simp only [hm]
          have hlen := imageMatchAt_length c cs cap rest hm
          have h1 : rest.length ≤ f := by simp at hf; omega
          have h2 : rest.length ≤ g := by simp at hg; omega
          rw [ih rest g h1 h2]

/-- The loop's event trace is exactly the per-item events with one sleep
interspersed between consecutive items. -/
theorem downloadLoopGo_events (net : String → HttpOutcome) (o n : String) (delay : Nat) :
    ∀ (links : List String) (total i : Nat) (fs : FS), total = i + links.length →
      (downloadLoopGo net o n delay total i links fs).2 =
        List.intersperse (Event.slept delay) (itemEvents net o n i links) := by
  intro links
  induction links with
  | nil => intro total i fs _; rfl
  | cons link rest ih =>
    intro total i fs h
    simp only [downloadLoopGo, itemEvents]
    have hstep : (match download_file net link (destPath o n (i + 1)) fs with
        | .ok fs1 => (fs1, Event.wrote (destPath o n (i + 1)))
        | .error e => (fs, Event.logged ("Error downloading " ++ link ++ ": " ++ e))).2 =
        itemEvent net o n i link := by
      rw [download_file, itemEvent]
      cases fetchOutcome net link <;> rfl
    cases rest with
    | nil =>
      have : ¬ i < total - 1 := by simp at h; omega
      simp only [if_neg this, itemEvents]
      rw [List.intersperse_single]
      simp only [downloadLoopGo]
      rw [hstep]
    | cons r rs =>
      have hlt : i < total - 1 := by simp at h; omega
      simp only [if_pos hlt]
      have hrec := ih total (i + 1)
        (match download_file net link (destPath o n (i + 1)) fs with
          | .ok fs1 => (fs1, Event.wrote (destPath o n (i + 1)))
          | .error e => (fs, Event.logged ("Error downloading " ++ link ++ ": " ++ e))).1
        (by simp at h ⊢; omega)
      simp only [itemEvents] at hrec ⊢
      rw [hstep, hrec]
      rfl

/-- One event per link. -/
theorem itemEvents_length (net : String → HttpOutcome) (o n : String) :
    ∀ (links : List String) (i : Nat), (itemEvents net o n i links).length = links.length := by
  intro links
  induction links with
  | nil => intro i; rfl
  | cons link rest ih => intro i; simp only [itemEvents, List.length_cons, ih]

/-- The event at position `j` belongs to the link at position `j`, with the
1-based destination index advanced by exactly `j`. -/
theorem itemEvents_getElem? (net : String → HttpOutcome) (o n : String) :
    ∀ (links : List String) (i j : Nat),
      (itemEvents net o n i links)[j]? =
        (links[j]?).map (fun link => itemEvent net o n (i + j) link) := by
  intro links
  induction links with
  | nil => intro i j; simp [itemEvents]
  | cons link rest ih =>
    intro i j
    cases j with
    | zero => simp [itemEvents]
    | succ j =>
      simp only [itemEvents, List.getElem?_cons_succ]
      rw [ih (i + 1) j]
      have : i + 1 + j = i + (j + 1) := by omega
      rw [this]

/-- No per-item event is a sleep. -/
theorem itemEvents_not_sleep (net : String → HttpOutcome) (o n : String) :
    ∀ (links : List String) (i : Nat), ∀ e ∈ itemEvents net o n i links, isSleep e = false := by
  intro links
  induction links with
  | nil => intro i e he; simp [itemEvents] at he
  | cons link rest ih =>
    intro i e he
    simp only [itemEvents, List.mem_cons] at he
    cases he with
    | inl h =>
      subst h
      rw [itemEvent]
      cases fetchOutcome net link <;> rfl
    | inr h => exact ih (i + 1) e h

/-- Interspersing a sleep between non-sleep items yields exactly
`items.length - 1` sleeps. -/
theorem intersperse_sleep_count (d : Nat) :
    ∀ items : List Event, (∀ e ∈ items, isSleep e = false) →
      ((List.intersperse (Event.slept d) items).filter isSleep).length = items.length - 1 := by
  intro items
  induction items with
  | nil => intro _; rfl
  | cons x rest ih =>
    intro hns
    cases rest with
    | nil =>
      simp only [List.intersperse_single, List.filter]
      rw [hns x (by simp)]
      rfl
    | cons y t =>
      have hx : isSleep x = false := hns x (by simp)
      have hrec := ih (fun e he => hns e (by simp [he]))
      rw [List.intersperse_cons_cons, List.filter_cons, List.filter_cons]
      rw [if_neg (by simp [hx]), if_pos (show isSleep (Event.slept d) = true from rfl)]
      simp only [List.length_cons, hrec]
      omega

/-- Dropping the sleeps from the interspersed trace recovers the items. -/
theorem intersperse_filter_not_sleep (d : Nat) :
    ∀ items : List Event, (∀ e ∈ items, isSleep e = false) →
      (List.intersperse (Event.slept d) items).filter (fun e => !(isSleep e)) = items := by
  intro items
  induction items with
  | nil => intro _; rfl
  | cons x rest ih =>
    intro hns
    cases rest with
    | nil =>
      simp only [List.intersperse_single, List.filter]
      rw [hns x (by simp)]
      rfl
    | cons y t =>
      have hx : isSleep x = false := hns x (by simp)
      have hrec := ih (fun e he => hns e (by simp [he]))
      rw [List.intersperse_cons_cons, List.filter_cons, List.filter_cons]
      rw [if_pos (by simp [hx]), if_neg (by simp [isSleep])]
      rw [hrec]

/-- The interspersed trace ends with the last item, not with a sleep. -/
theorem intersperse_getLast? (s : Event) :
    ∀ items : List Event, items ≠ [] →
      (List.intersperse s items).getLast? = items.getLast? := by
  intro items
  induction items with
  | nil => intro h; exact absurd rfl h
  | cons x rest ih =>
    intro _
    cases rest with
    | nil => rfl
    | cons y t =>
      have hrec := ih (by simp)
      rw [List.intersperse_cons_cons]
      rw [show (x :: s :: List.intersperse s (y :: t)).getLast? =
          (List.intersperse s (y :: t)).getLast? from ?_, hrec]
      · rw [show ((x :: y :: t).getLast? = (y :: t).getLast?) from ?_]
        cases t <;> rfl
      · have hne : List.intersperse s (y :: t) ≠ [] := by
          cases t <;> simp [List.intersperse]
        rw [show x :: s :: List.intersperse s (y :: t) =
            [x, s] ++ List.intersperse s (y :: t) from rfl]
        exact List.getLast?_append_of_ne_nil _ hne

/-! Claims -/

/-- C10: for every input page text, source URL, and image count, the
metadata record returned by `extract_metadata` has its description field
absent (`none`) — no description lookup is ever performed — while the
`num_images` field is always populated with the supplied unique-image
count. -/
theorem c10_description_never_populated (html url : String) (n : Nat) :
    (extract_metadata html url n).description = none ∧
    (extract_metadata html url n).num_images =
      some ("Number of unique images found: " ++ toString n) := by
  simp only [extract_metadata]
  rcases hp : priceCapture html with _ | p <;>
    rcases hs : stCaptures html with _ | ⟨_ | a, _ | b, _ | c, _ | d, _ | e⟩ <;>
      simp

/-- C7: for every input page text, the metadata record has either all five
composite address fields (street, city, state, zip, mls) populated or all
five absent — never a partial subset — and the price field is a function
of the price pattern alone, so an address non-match never prevents the
price lookup from populating its field (and vice versa). -/
theorem c7_address_all_or_none (html url : String) (n : Nat) :
    (((extract_metadata html url n).street = none ∧
      (extract_metadata html url n).city = none ∧
      (extract_metadata html url n).state = none ∧
      (extract_metadata html url n).zip = none ∧
      (extract_metadata html url n).mls = none) ∨
     ((extract_metadata html url n).street.isSome = true ∧
      (extract_metadata html url n).city.isSome = true ∧
      (extract_metadata html url n).state.isSome = true ∧
      (extract_metadata html url n).zip.isSome = true ∧
      (extract_metadata html url n).mls.isSome = true)) ∧
    (extract_metadata html url n).price =
      (priceCapture html).map (fun p => "Price: $" ++ p) := by
  simp only [extract_metadata]
  rcases hp : priceCapture html with _ | p <;>
    rcases hs : stCaptures html with _ | ⟨_ | a, _ | b, _ | c, _ | d, _ | e⟩ <;>
      simp

/-- A page snippet on which `PRICE_RE` matches with thousands separators
in the captured group. -/
def c4Html : String := "propertyHistory-table-tdX><div>$1,234</div></td></tr>"

/-- C4 counterexample: the claim says the comma thousands separators are
removed from the matched numeric text; on this page the match is `1,234`
and the populated price field still contains the comma — nothing strips
it. -/
theorem c4_counterexample :
    priceCapture c4Html = some "1,234" ∧
    (extract_metadata c4Html "u" 0).price = some "Price: $1,234" ∧
    ("Price: $1,234".toList.contains ',') = true := by decide

/-- C4 amended: whenever the price pattern matches, `extract_metadata`
populates the price field with the matched numeric text verbatim —
thousands separators retained, not removed — prefixed with `Price: $`,
kept as display text rather than parsed into a numeric type. -/
theorem c4_price_verbatim (html url : String) (n : Nat) (cap : String)
    (h : priceCapture html = some cap) :
    (extract_metadata html url n).price = some ("Price: $" ++ cap) := by
  simp only [extract_metadata, h]
  rcases hs : stCaptures html with _ | ⟨_ | a, _ | b, _ | c, _ | d, _ | e⟩ <;> simp

/-- Witness for C4 amended at a concrete comma-separated price. -/
theorem c4_price_verbatim_witness :
    (extract_metadata c4Html "u" 0).price = some ("Price: $" ++ "1,234") :=
  c4_price_verbatim c4Html "u" 0 "1,234" (by decide)

/-- C3 counterexample: a non-success HTTP status (404) still yields a
successful `Page` result from `get_html` — the body is returned as the
page text.  (`error_for_status` is called only in `download_file`; 404 is
indeed a non-success status, as the second conjunct records.) -/
theorem c3_counterexample :
    get_html (fun _ => HttpOutcome.response 404 "oops") (fun _ => none) "http://x" =
      .ok "oops" ∧
    statusIsError 404 = true := ⟨rfl, rfl⟩

/-- C3 amended: for a network source, `get_html` returns the response body
as a successful result for every received response, whatever its status
code; only a transport-level failure of `send()` produces the fetch
error. -/
theorem c3_get_html_ignores_status (net : String → HttpOutcome)
    (localFs : String → Option String) (u : String) (status : Nat) (body : String)
    (hu : startsWithChars "http" u = true) (hnet : net u = .response status body) :
    get_html net localFs u = .ok body := by
  simp [get_html, hu, hnet]

/-- Witness for C3 amended at a concrete 404 response. -/
theorem c3_get_html_ignores_status_witness :
    get_html (fun _ => HttpOutcome.response 404 "oops") (fun _ => none) "http://x" =
      .ok "oops" :=
  c3_get_html_ignores_status (fun _ => HttpOutcome.response 404 "oops") (fun _ => none)
    "http://x" 404 "oops" (by decide) rfl

/-- Page for the C1 counterexample: a single image link. -/
def c1Html : String := "\"https://x/a-origin.webp\""

/-- The single image link of `c1Html`. -/
def c1Link : String := "https://x/a-origin.webp"

/-- Network for the C1 counterexample: the image URL serves fresh bytes. -/
def c1Net : String → HttpOutcome :=
  fun u => if u == "https://x/a-origin.webp" then .response 200 "new-bytes"
           else .transportError "unreachable"

/-- Local page source for the C1 counterexample. -/
def c1LocalFs : String → Option String :=
  fun p => if p == "page.txt" then some c1Html else none

/-- A prior run's filesystem: the first image destination already exists. -/
def c1Fs0 : FS := [(destPath "o" "n" 1, "old-bytes")]

/-- C1 counterexample: the destination file for the image already exists
with `old-bytes` before the run, yet after a second run with the same
`--name`/`--output` it holds the freshly downloaded `new-bytes` — the
write is performed, not skipped, so an already-downloaded image file is
overwritten. -/
theorem c1_counterexample :
    extract_unique_image_links c1Html [c1Link] ∧
    fsRead c1Fs0 (destPath "o" "n" 1) = some "old-bytes" ∧
    fsRead (runFS (runMainWith c1Net c1LocalFs "page.txt" "n" "o" false 2 [c1Link] c1Fs0))
        (destPath "o" "n" 1) = some "new-bytes" := by decide

/-- C1 amended: `download_file` never checks the existing destination:
whenever the image fetch succeeds it writes the fetched bytes to the
destination path unconditionally, overwriting whatever was there, so a
second run re-downloads and overwrites already-downloaded image files. -/
theorem c1_download_always_writes (net : String → HttpOutcome) (url path : String)
    (fs : FS) (status : Nat) (body : String)
    (hnet : net url = .response status body) (hok : statusIsError status = false) :
    download_file net url path fs = .ok (fsWrite fs path body) ∧
    fsRead (fsWrite fs path body) path = some body := by
  constructor
  · simp [download_file, fetchOutcome, hnet, hok, Except.map]
  · exact fsRead_fsWrite fs path body

/-- Witness for C1 amended: the destination already holds `old`, the fetch
returns `B`, and the write still happens. -/
theorem c1_download_always_writes_witness :
    download_file (fun _ => HttpOutcome.response 200 "B") "u" "p" [("p", "old")] =
      .ok (fsWrite [("p", "old")] "p" "B") ∧
    fsRead (fsWrite [("p", "old")] "p" "B") "p" = some "B" :=
  c1_download_always_writes (fun _ => HttpOutcome.response 200 "B") "u" "p"
    [("p", "old")] 200 "B" rfl rfl

/-- Local page source for the C2 counterexample: a page with no image-link
match (and no site marker of any kind). -/
def c2LocalFs : String → Option String :=
  fun p => if p == "page.txt" then some "hello" else none

/-- C2 counterexample: for a source with zero useful matches the pipeline
does not raise any error — there is no `UnsupportedSiteError` in the
program — it writes `page.html` and `info.txt`, skips the download loop,
and exits 0 (a silently empty result), contradicting the claimed hard
error and non-zero exit. -/
theorem c2_counterexample :
    imageCaptures "hello" = [] ∧
    extract_unique_image_links "hello" [] ∧
    runResultOk (runMainWith (fun _ => .transportError "unused") c2LocalFs
        "page.txt" "n" "o" false 2 [] []) = true ∧
    runEvents (runMainWith (fun _ => .transportError "unused") c2LocalFs
        "page.txt" "n" "o" false 2 [] []) =
      [Event.wrote (pagePath "o" "n"), Event.wrote (infoPath "o" "n")] := by decide

/-- C2 amended: when link extraction yields zero matches the link list is
necessarily empty, the download loop is skipped — so no image destination
file is created — and the run still completes successfully (exit 0) after
writing only `page.html` and `info.txt`; no error is raised. -/
theorem c2_no_matches_silent_success (net : String → HttpOutcome)
    (localFs : String → Option String) (url name output : String) (delay : Nat)
    (links : List String) (fs : FS) (html : String)
    (hhtml : get_html net localFs url = .ok html)
    (hcaps : imageCaptures html = [])
    (hlinks : extract_unique_image_links html links) :
    links = [] ∧
    runMainWith net localFs url name output false delay links fs =
      .ok (fsWrite (fsWrite fs (pagePath output name) html) (infoPath output name)
             (serializeMetadata (extract_metadata html url 0)),
           [Event.wrote (pagePath output name), Event.wrote (infoPath output name)]) := by
  have hnil : links = [] := by
    rcases hlinks with ⟨_, hsub, _⟩
    cases links with
    | nil => rfl
    | cons l ls =>
      exfalso
      have := hsub l (by simp)
      rw [hcaps] at this
      simp at this
  subst hnil
  refine ⟨rfl, ?_⟩
  simp [runMainWith, hhtml]

/-- Witness for C2 amended on the concrete no-match page. -/
theorem c2_no_matches_silent_success_witness :
    ([] : List String) = [] ∧
    runMainWith (fun _ => .transportError "unused") c2LocalFs "page.txt" "n" "o" false 2 [] [] =
      .ok (fsWrite (fsWrite [] (pagePath "o" "n") "hello") (infoPath "o" "n")
             (serializeMetadata (extract_metadata "hello" "page.txt" 0)),
           [Event.wrote (pagePath "o" "n"), Event.wrote (infoPath "o" "n")]) :=
  c2_no_matches_silent_success (fun _ => .transportError "unused") c2LocalFs
    "page.txt" "n" "o" 2 [] [] "hello" rfl (by decide) (by decide)

/-- A run whose page fetch succeeds exits 0, whatever happens inside the
download loop. -/
theorem runMainWith_ok (net : String → HttpOutcome) (localFs : String → Option String)
    (url name output : String) (skip : Bool) (delay : Nat) (links : List String)
    (fs : FS) (html : String) (hhtml : get_html net localFs url = .ok html) :
    runResultOk (runMainWith net localFs url name output skip delay links fs) = true := by
  simp only [runMainWith, hhtml]
  cases skip with
  | true => rfl
  | false => cases hls : links.isEmpty <;> simp [runResultOk]

/-- The event trace of a run that enters the download loop: the two
metadata writes followed by the loop trace. -/
theorem runMainWith_events (net : String → HttpOutcome) (localFs : String → Option String)
    (url name output : String) (delay : Nat) (links : List String) (fs : FS) (html : String)
    (hhtml : get_html net localFs url = .ok html) (hne : links ≠ []) :
    runEvents (runMainWith net localFs url name output false delay links fs) =
      [Event.wrote (pagePath output name), Event.wrote (infoPath output name)] ++
        List.intersperse (Event.slept delay) (itemEvents net output name 0 links) := by
  cases links with
  | nil => exact absurd rfl hne
  | cons l ls =>
    simp only [runMainWith, hhtml, Bool.false_eq_true, if_false, List.isEmpty_cons]
    rw [downloadLoop,
      downloadLoopGo_events net output name delay (l :: ls) (l :: ls).length 0 _ (by omega)]
    rfl

/-- The per-item events of a loop over a nonempty link list are nonempty,
and so is their interspersed trace. -/
theorem intersperse_itemEvents_ne_nil (net : String → HttpOutcome) (o n : String)
    (delay : Nat) (links : List String) (hne : links ≠ []) :
    itemEvents net o n 0 links ≠ [] ∧
    List.intersperse (Event.slept delay) (itemEvents net o n 0 links) ≠ [] := by
  cases links with
  | nil => exact absurd rfl hne
  | cons l ls =>
    constructor
    · simp [itemEvents]
    · cases h : itemEvents net o n 0 (l :: ls) with
      | nil => simp [itemEvents] at h
      | cons x rest => cases rest <;> simp [List.intersperse]

/-- C6: the link list presented to the download loop is duplicate-free:
every URL matched in the page appears in it exactly once, however many
times the page repeats it, and the loop performs exactly one download
attempt (one non-sleep event) per list entry. -/
theorem c6_links_deduplicated (html : String) (links : List String)
    (h : extract_unique_image_links html links) :
    links.Nodup ∧
    (∀ url ∈ imageCaptures html, links.count url = 1) ∧
    (∀ net o n delay fs,
      (((downloadLoop net o n delay links fs).2).filter (fun e => !(isSleep e))).length =
        links.length) := by
  obtain ⟨hnd, _, hsup⟩ := h
  refine ⟨hnd, ?_, ?_⟩
  · intro url hurl
    exact List.count_eq_one_of_mem hnd (hsup url hurl)
  · intro net o n delay fs
    rw [downloadLoop, downloadLoopGo_events net o n delay links links.length 0 fs (by omega)]
    rw [intersperse_filter_not_sleep delay _ (itemEvents_not_sleep net o n links 0)]
    exact itemEvents_length net o n links 0

/-- A page repeating the same image URL three times. -/
def c6Html : String :=
  "\"https://x/a-origin.webp\"\"https://x/a-origin.webp\"\"https://x/a-origin.webp\""

/-- Witness for C6: the page yields three identical captures, and the only
valid link list contains that URL exactly once. -/
theorem c6_links_deduplicated_witness :
    imageCaptures c6Html =
      ["https://x/a-origin.webp", "https://x/a-origin.webp", "https://x/a-origin.webp"] ∧
    (["https://x/a-origin.webp"] : List String).Nodup ∧
    (["https://x/a-origin.webp"] : List String).count "https://x/a-origin.webp" = 1 :=
  ⟨by decide,
   (c6_links_deduplicated c6Html ["https://x/a-origin.webp"] (by decide)).1,
   (c6_links_deduplicated c6Html ["https://x/a-origin.webp"] (by decide)).2.1
     "https://x/a-origin.webp" (by decide)⟩

/-- A page with two distinct image links, `…a…` discovered before `…b…`. -/
def c5Html : String := "\"https://a/1-origin.webp\" \"https://b/2-origin.webp\""

/-- Network for the C5 counterexample: each link serves its own bytes. -/
def c5Net : String → HttpOutcome :=
  fun u => if u == "https://b/2-origin.webp" then .response 200 "bodyB"
           else .response 200 "bodyA"

/-- C5 counterexample: `https://a/1-origin.webp` is discovered first in the
page text, but `["https://b/2-origin.webp", "https://a/1-origin.webp"]` is
also a permitted output of the `HashSet`-based extraction (iteration order
is unspecified), and in that permitted run destination index 1 receives
the bytes of the *second*-discovered link — the index does not reflect
discovery order. -/
theorem c5_counterexample :
    imageCaptures c5Html = ["https://a/1-origin.webp", "https://b/2-origin.webp"] ∧
    ("https://a/1-origin.webp" : String) ≠ "https://b/2-origin.webp" ∧
    extract_unique_image_links c5Html
      ["https://b/2-origin.webp", "https://a/1-origin.webp"] ∧
    fsRead (downloadLoop c5Net "o" "n" 0
        ["https://b/2-origin.webp", "https://a/1-origin.webp"] []).1
      (destPath "o" "n" 1) = some "bodyB" ∧
    ("bodyB" : String) ≠ "bodyA" := by decide

/-- C5 amended: the destination file for the `j`-th link of the list
presented to the download loop (0-based `j`) is
`<output>/<name>/images/<name>-<j+1>.webp`; every link considered occupies
its slot in the per-item trace — the index advances with each distinct
link considered, successful or not — and a successful item writes exactly
to its indexed path.  The list order, however, is the hash set's arbitrary
iteration order, not necessarily the order of discovery in the page
text. -/
theorem c5_positional_indexing (net : String → HttpOutcome) (o n : String)
    (delay : Nat) (links : List String) (fs : FS) (j : Nat) (link : String)
    (hj : links[j]? = some link) :
    (downloadLoop net o n delay links fs).2 =
      List.intersperse (Event.slept delay) (itemEvents net o n 0 links) ∧
    (itemEvents net o n 0 links)[j]? = some (itemEvent net o n j link) ∧
    (∀ status body, net link = .response status body → statusIsError status = false →
      itemEvent net o n j link = Event.wrote (destPath o n (j + 1))) ∧
    destPath o n (j + 1) =
      o ++ "/" ++ n ++ "/images/" ++ n ++ "-" ++ toString (j + 1) ++ ".webp" := by
  refine ⟨downloadLoopGo_events net o n delay links links.length 0 fs (by omega), ?_, ?_, rfl⟩
  · rw [itemEvents_getElem? net o n links 0 j, hj]
    simp
  · intro status body hnet hok
    simp [itemEvent, fetchOutcome, hnet, hok]

/-- Witness for C5 amended: in the permitted order of `c5_counterexample`,
position 0 holds the `…b…` link and its successful download writes to
destination index 1. -/
theorem c5_positional_indexing_witness :
    (itemEvents c5Net "o" "n" 0
        ["https://b/2-origin.webp", "https://a/1-origin.webp"])[0]? =
      some (itemEvent c5Net "o" "n" 0 "https://b/2-origin.webp") ∧
    itemEvent c5Net "o" "n" 0 "https://b/2-origin.webp" =
      Event.wrote (destPath "o" "n" 1) :=
  ⟨(c5_positional_indexing c5Net "o" "n" 0
      ["https://b/2-origin.webp", "https://a/1-origin.webp"] [] 0
      "https://b/2-origin.webp" rfl).2.1,
   (c5_positional_indexing c5Net "o" "n" 0
      ["https://b/2-origin.webp", "https://a/1-origin.webp"] [] 0
      "https://b/2-origin.webp" rfl).2.2.1 200 "bodyB" (by decide) rfl⟩

/-- C8: a per-image failure is logged in place and the loop proceeds: the
run still exits 0 whatever the per-link network outcomes, the trace
contains the two metadata writes followed by one event per link, and a
link whose fetch fails contributes a log event at its own position
(leaving every other link's event in place). -/
theorem c8_per_item_isolation (net : String → HttpOutcome)
    (localFs : String → Option String) (url name output : String) (delay : Nat)
    (links : List String) (fs : FS) (html : String)
    (hhtml : get_html net localFs url = .ok html) :
    runResultOk (runMainWith net localFs url name output false delay links fs) = true ∧
    (links ≠ [] →
      runEvents (runMainWith net localFs url name output false delay links fs) =
        [Event.wrote (pagePath output name), Event.wrote (infoPath output name)] ++
          List.intersperse (Event.slept delay) (itemEvents net output name 0 links)) ∧
    (∀ (j : Nat) (link msg : String),
      links[j]? = some link → fetchOutcome net link = .error msg →
      (itemEvents net output name 0 links)[j]? =
        some (Event.logged ("Error downloading " ++ link ++ ": " ++ msg))) := by
  refine ⟨runMainWith_ok net localFs url name output false delay links fs html hhtml,
    runMainWith_events net localFs url name output delay links fs html hhtml, ?_⟩
  intro j link msg hj hf
  rw [itemEvents_getElem? net output name links 0 j, hj]
  simp [itemEvent, hf]

/-- Network for the C8 witness: the first link fails at transport level,
the second succeeds. -/
def c8Net : String → HttpOutcome :=
  fun u => if u == "https://bad/x-origin.webp" then .transportError "boom"
           else .response 200 "ok"

/-- Witness for C8: with one failing and one succeeding link the run still
exits 0 and the failing link's slot holds its log event. -/
theorem c8_per_item_isolation_witness :
    runResultOk (runMainWith c8Net (fun _ => some "hello") "p" "n" "o" false 1
        ["https://bad/x-origin.webp", "https://good/y-origin.webp"] []) = true ∧
    (itemEvents c8Net "o" "n" 0
        ["https://bad/x-origin.webp", "https://good/y-origin.webp"])[0]? =
      some (Event.logged
        ("Error downloading " ++ "https://bad/x-origin.webp" ++ ": " ++ "boom")) :=
  ⟨(c8_per_item_isolation c8Net (fun _ => some "hello") "p" "n" "o" 1
      ["https://bad/x-origin.webp", "https://good/y-origin.webp"] [] "hello" rfl).1,
   (c8_per_item_isolation c8Net (fun _ => some "hello") "p" "n" "o" 1
      ["https://bad/x-origin.webp", "https://good/y-origin.webp"] [] "hello" rfl).2.2
     0 "https://bad/x-origin.webp" "boom" rfl rfl⟩

/-- C9: a run entering the download loop with K ≥ 1 links sleeps exactly
between consecutive download attempts — the trace is the per-item events
with one sleep interspersed between neighbours, K−1 sleeps in total — and
never sleeps after the final item, whether that item succeeded or
failed. -/
theorem c9_sleep_discipline (net : String → HttpOutcome)
    (localFs : String → Option String) (url name output : String) (delay : Nat)
    (links : List String) (fs : FS) (html : String)
    (hhtml : get_html net localFs url = .ok html) (hne : links ≠ []) :
    runEvents (runMainWith net localFs url name output false delay links fs) =
      [Event.wrote (pagePath output name), Event.wrote (infoPath output name)] ++
        List.intersperse (Event.slept delay) (itemEvents net output name 0 links) ∧
    (itemEvents net output name 0 links).length = links.length ∧
    (∀ e ∈ itemEvents net output name 0 links, isSleep e = false) ∧
    ((runEvents (runMainWith net localFs url name output false delay links fs)).filter
        isSleep).length = links.length - 1 ∧
    (∀ d, (runEvents (runMainWith net localFs url name output false delay links fs)).getLast? ≠
        some (Event.slept d)) := by
  have hev := runMainWith_events net localFs url name output delay links fs html hhtml hne
  have hns := itemEvents_not_sleep net output name links 0
  obtain ⟨hitems, hint⟩ := intersperse_itemEvents_ne_nil net output name delay links hne
  refine ⟨hev, itemEvents_length net output name links 0, hns, ?_, ?_⟩
  · rw [hev, List.filter_append]
    rw [show List.filter isSleep
        [Event.wrote (pagePath output name), Event.wrote (infoPath output name)] = []
      from rfl, List.nil_append]
    rw [intersperse_sleep_count delay _ hns, itemEvents_length net output name links 0]
  · intro d hlast
    rw [hev, List.getLast?_append_of_ne_nil _ hint,
      intersperse_getLast? (Event.slept delay) _ hitems] at hlast
    have hmem : Event.slept d ∈ itemEvents net output name 0 links :=
      List.mem_of_mem_getLast? (by rw [hlast]; rfl)
    have := hns (Event.slept d) hmem
    simp [isSleep] at this

/-- Witness for C9: a two-link run with delay 5 sleeps exactly once and
does not end with a sleep. -/
theorem c9_sleep_discipline_witness :
    ((runEvents (runMainWith (fun _ => HttpOutcome.response 200 "B")
        (fun _ => some "hello") "p" "n" "o" false 5
        ["https://a/1-origin.webp", "https://b/2-origin.webp"] [])).filter
      isSleep).length = 1 ∧
    (runEvents (runMainWith (fun _ => HttpOutcome.response 200 "B")
        (fun _ => some "hello") "p" "n" "o" false 5
        ["https://a/1-origin.webp", "https://b/2-origin.webp"] [])).getLast? ≠
      some (Event.slept 5) :=
  ⟨(c9_sleep_discipline (fun _ => HttpOutcome.response 200 "B") (fun _ => some "hello")
      "p" "n" "o" 5 ["https://a/1-origin.webp", "https://b/2-origin.webp"] [] "hello"
      rfl (by simp)).2.2.2.1,
   (c9_sleep_discipline (fun _ => HttpOutcome.response 200 "B") (fun _ => some "hello")
      "p" "n" "o" 5 ["https://a/1-origin.webp", "https://b/2-origin.webp"] [] "hello"
      rfl (by simp)).2.2.2.2 5⟩

end CasteelCreek
